import Mathlib

set_option autoImplicit false

/-!
Verification development for the core execution substrate: hierarchical
names (src/src/util/name.h), the trace registry and scoped trace
environment (src/src/library/trace.cpp), the core execution context and
declaration pipeline (src/stage0/stdlib/Lean/CoreM.c), and the
set_option elaborator (src/stage0/stdlib/Lean/Elab/SetOption.c).

The stateful code is embedded with explicit state passing; external
collaborators (the kernel, the compiler backend, the option-declaration
registry) are parameters, following the collaborator interfaces of the
design document.
-/

/-- Hierarchical names, mirroring `name_kind` ANONYMOUS / STRING / NUMERAL
and the tagged representation of `class name` in src/src/util/name.h. -/
inductive Name where
  | anonymous : Name
  | str (pre : Name) (s : String) : Name
  | num (pre : Name) (n : Nat) : Name
deriving DecidableEq, Repr

namespace Name

/-- Modelled from the spec: the string component's contribution to the
cached hash (the hash-mixing code lives in name.cpp, which is not under
src/); the spec only requires a hash cached on construction, computed
from the prefix hash and the component. -/
def strHash (s : String) : Nat :=
  s.toList.foldl (fun a c => (a * 131 + c.toNat) % 4294967296) 7

/-- Modelled from the spec: combination of a prefix hash with a component
hash, reduced to the 32-bit range of the C++ `unsigned` cache field. -/
def mixHash (a b : Nat) : Nat := (a * 524287 + b + 2654435769) % 4294967296

/-- The cached hash: anonymous (scalar) names hash to 11
(src/src/util/name.h, `hash()`); compound names cache a mix of the
prefix hash and the component. -/
def hashVal : Name → Nat
  | .anonymous => 11
  | .str p s => mixHash p.hashVal (strHash s)
  | .num p n => mixHash p.hashVal n

/-- Structural equality, `name::eq_core` (declared in src/src/util/name.h;
its body is in name.cpp, modelled from the spec's "equality is
structural"). -/
def eqCore : Name → Name → Bool
  | .anonymous, .anonymous => true
  | .str p1 s1, .str p2 s2 => decide (s1 = s2) && eqCore p1 p2
  | .num p1 n1, .num p2 n2 => decide (n1 = n2) && eqCore p1 p2
  | _, _ => false

/-- `operator==` of src/src/util/name.h: raw-pointer equality and the
scalar-kind test collapse to structural equality in a value model; the
cached-hash early exit is kept: names with different hashes compare
unequal without a structural walk. -/
def beqName (a b : Name) : Bool :=
  if a.hashVal ≠ b.hashVal then false else eqCore a b

/-- Three-way comparison on strings used by the total order. -/
def cmpStr (a b : String) : Int :=
  if a = b then 0 else if a < b then -1 else 1

/-- Three-way comparison on numerals used by the total order. -/
def cmpNat (a b : Nat) : Int :=
  if a = b then 0 else if a < b then -1 else 1

/-- Modelled from the spec: `name::cmp_core` (in name.cpp, not under
src/), the total lexicographic order over the prefix chain, independent
of the hash: compare prefixes first, then kinds, then components. -/
def cmp : Name → Name → Int
  | .anonymous, .anonymous => 0
  | .anonymous, _ => -1
  | _, .anonymous => 1
  | .str p1 s1, .str p2 s2 => if cmp p1 p2 = 0 then cmpStr s1 s2 else cmp p1 p2
  | .str p1 _, .num p2 _ => if cmp p1 p2 = 0 then -1 else cmp p1 p2
  | .num p1 _, .str p2 _ => if cmp p1 p2 = 0 then 1 else cmp p1 p2
  | .num p1 n1, .num p2 n2 => if cmp p1 p2 = 0 then cmpNat n1 n2 else cmp p1 p2

/-- `quick_cmp` of src/src/util/name.h: order by hash first; on a hash
tie fall back to `operator==` and then to the full `cmp`. (The raw
pointer short-circuit of the C++ is subsumed by the equality test in a
value model.) -/
def quickCmp (a b : Name) : Int :=
  if a.hashVal ≠ b.hashVal then (if a.hashVal < b.hashVal then -1 else 1)
  else if beqName a b then 0 else cmp a b

/-- Modelled from the spec: `is_prefix_of` (declared in src/src/util/name.h,
body in name.cpp): true iff walking the second name's prefix chain
(starting at the name itself) reaches exactly the first name. -/
def isPrefixOf (a : Name) : Name → Bool
  | .anonymous => decide (a = .anonymous)
  | .str p s => decide (a = .str p s) || isPrefixOf a p
  | .num p n => decide (a = .num p n) || isPrefixOf a p

/-- Modelled from the spec: `name::replace_prefix` (declared in
src/src/util/name.h, body in name.cpp): if the second argument is a
prefix of the name, rebuild the chain substituting the third argument
for the matched prefix; otherwise return the name unchanged. -/
def replacePre (n oldP newP : Name) : Name :=
  match n with
  | .anonymous => if Name.anonymous = oldP then newP else .anonymous
  | .str p s => if Name.str p s = oldP then newP else .str (replacePre p oldP newP) s
  | .num p k => if Name.num p k = oldP then newP else .num (replacePre p oldP newP) k

/-- `name::is_atomic` of src/src/util/name.h: anonymous, or the prefix is
anonymous. -/
def isAtomic : Name → Bool
  | .anonymous => true
  | .str p _ => decide (p = Name.anonymous)
  | .num p _ => decide (p = Name.anonymous)

theorem eqCore_iff (a b : Name) : eqCore a b = true ↔ a = b := by
  induction a generalizing b <;> cases b <;>
    simp_all [eqCore, and_comm]

theorem hashVal_congr {a b : Name} (h : a = b) : a.hashVal = b.hashVal := by
  rw [h]

theorem beqName_iff (a b : Name) : beqName a b = true ↔ a = b := by
  unfold beqName
  by_cases h : a.hashVal = b.hashVal
  · simp [h, eqCore_iff]
  · simp [h]
    intro he
    exact h (hashVal_congr he)

theorem cmp_refl (a : Name) : cmp a a = 0 := by
  induction a with
  | anonymous => rfl
  | str p s ih => simp [cmp, ih, cmpStr]
  | num p n ih => simp [cmp, ih, cmpNat]

end Name

/-! ## Trace registry and scoped trace environment (src/src/library/trace.cpp) -/

/-- A boolean-or-other option value; configuration maps bind names to
these (`data_value` / `DataValue`). -/
inductive DataValue where
  | ofString (s : String)
  | ofBool (b : Bool)
  | ofName (n : Name)
  | ofNat (n : Nat)
deriving DecidableEq, Repr

/-- A key-value configuration map (`options` / `KVMap`), iterated in list
order by `for_each`. -/
abbrev KVMap := List (Name × DataValue)

/-- Lookup of a key in a configuration map (first matching entry). -/
def kvFind (o : KVMap) (n : Name) : Option DataValue :=
  (o.find? (fun e => decide (e.1 = n))).map (·.2)

/-- `options::get_bool(n, default)`: the bound boolean, or the default
when the key is absent or non-boolean. -/
def kvGetBool (o : KVMap) (n : Name) (dflt : Bool) : Bool :=
  match kvFind o n with
  | some (.ofBool b) => b
  | _ => dflt

/-- The alias table `g_trace_aliases : name_map<name_set>`, a map from a
class name to its set of alias names. -/
abbrev AliasMap := List (Name × List Name)

/-- `g_trace_aliases->find(n)`. -/
def findAliases (A : AliasMap) (n : Name) : Option (List Name) :=
  (A.find? (fun e => decide (e.1 = n))).map (·.2)

/-- `register_trace_class_alias`: read the class's alias set (empty when
absent), add the alias, and store the new set back. -/
def registerTraceClassAlias (A : AliasMap) (n al : Name) : AliasMap :=
  let s := (findAliases A n).getD []
  let s2 := if al ∈ s then s else s ++ [al]
  match A.find? (fun e => decide (e.1 = n)) with
  | some _ => A.map (fun e => if e.1 = n then (n, s2) else e)
  | none => (n, s2) :: A

/-- `update_class`: append the class to the list unless already present. -/
def updateClass (cs : List Name) (c : Name) : List Name :=
  if c ∈ cs then cs else cs ++ [c]

/-- `is_trace_class_set_core`: some member of the list is a prefix of the
queried name. -/
def isTraceClassSetCore (cs : List Name) (n : Name) : Bool :=
  cs.any (fun p => p.isPrefixOf n)

/-- One step of the alias walk of `is_trace_class_set`: some registered
alias of the current name is matched in the list. -/
def aliasStepMatch (A : AliasMap) (cs : List Name) (it : Name) : Bool :=
  match findAliases A it with
  | some s => s.any (fun al => isTraceClassSetCore cs al)
  | none => false

/-- The loop of `is_trace_class_set`: at the current name check its
aliases; stop (returning false) at an atomic name, else move to the
prefix. -/
def aliasWalk (A : AliasMap) (cs : List Name) : Name → Bool
  | .anonymous => aliasStepMatch A cs .anonymous
  | .str p s =>
    aliasStepMatch A cs (.str p s) ||
      (if (Name.str p s).isAtomic then false else aliasWalk A cs p)
  | .num p k =>
    aliasStepMatch A cs (.num p k) ||
      (if (Name.num p k).isAtomic then false else aliasWalk A cs p)

/-- `is_trace_class_set`: a direct prefix match, or a match through the
alias walk along the prefix chain. -/
def isTraceClassSet (A : AliasMap) (cs : List Name) (n : Name) : Bool :=
  isTraceClassSetCore cs n || aliasWalk A cs n

/-- `is_trace_enabled`: the enabled list is non-empty. -/
def isTraceEnabled (enabledCs : List Name) : Bool :=
  !enabledCs.isEmpty

/-- `is_trace_class_enabled`: tracing globally on, not explicitly
disabled, and matched in the enabled list; disabling takes precedence. -/
def isTraceClassEnabled (A : AliasMap) (enabledCs disabledCs : List Name)
    (n : Name) : Bool :=
  if !isTraceEnabled enabledCs then false
  else if isTraceClassSet A disabledCs n then false
  else isTraceClassSet A enabledCs n

/-- The names visited by the alias-walk loop of `is_trace_class_set`:
the name itself and its non-anonymous prefixes (the loop stops at an
atomic name; an anonymous query is itself visited). -/
def visitedChain : Name → List Name
  | .anonymous => [Name.anonymous]
  | .str p s =>
    Name.str p s :: (if (Name.str p s).isAtomic then [] else visitedChain p)
  | .num p k =>
    Name.num p k :: (if (Name.num p k).isAtomic then [] else visitedChain p)

/-- Proposition-level reading of the matching algorithm: the name is
matched in the list directly (some listed class is a prefix of it), or
some name on its visited prefix chain has a registered alias that is
matched directly. -/
def MatchedIn (A : AliasMap) (cs : List Name) (n : Name) : Prop :=
  (∃ p ∈ cs, p.isPrefixOf n = true) ∨
    (∃ q ∈ visitedChain n, ∃ al ∈ (findAliases A q).getD [],
      ∃ p ∈ cs, p.isPrefixOf al = true)

theorem aliasStepMatch_iff (A : AliasMap) (cs : List Name) (it : Name) :
    aliasStepMatch A cs it = true ↔
      ∃ al ∈ (findAliases A it).getD [], ∃ p ∈ cs, p.isPrefixOf al = true := by
  unfold aliasStepMatch
  cases h : findAliases A it with
  | none => simp [h]
  | some s => simp [h, isTraceClassSetCore, List.any_eq_true]

theorem aliasWalk_iff (A : AliasMap) (cs : List Name) (n : Name) :
    aliasWalk A cs n = true ↔
      ∃ q ∈ visitedChain n, ∃ al ∈ (findAliases A q).getD [],
        ∃ p ∈ cs, p.isPrefixOf al = true := by
  induction n with
  | anonymous =>
    simp [aliasWalk, visitedChain, aliasStepMatch_iff]
  | str p s ih =>
    by_cases hat : (Name.str p s).isAtomic = true
    · simp [aliasWalk, visitedChain, hat, aliasStepMatch_iff]
    · simp only [aliasWalk, visitedChain, hat]
      simp [aliasStepMatch_iff, ih]
  | num p k ih =>
    by_cases hat : (Name.num p k).isAtomic = true
    · simp [aliasWalk, visitedChain, hat, aliasStepMatch_iff]
    · simp only [aliasWalk, visitedChain, hat]
      simp [aliasStepMatch_iff, ih]

theorem isTraceClassSet_iff (A : AliasMap) (cs : List Name) (n : Name) :
    isTraceClassSet A cs n = true ↔ MatchedIn A cs n := by
  unfold isTraceClassSet MatchedIn
  simp [isTraceClassSetCore, List.any_eq_true, aliasWalk_iff]

/-- An environment: the accumulated checked declarations, a map from a
name to its declaration info (collaborator interface
`environment.find`). -/
abbrev Environment := List (Name × Nat)

/-- `environment.find`: first binding of the name, if any. -/
def envFind (env : Environment) (n : Name) : Option Nat :=
  (env.find? (fun e => decide (e.1 = n))).map (·.2)

/-- The thread-local mutable globals of trace.cpp: the enabled and
disabled class lists and the bound (nullable) environment / options /
type-context pointers, pointers modelled as `Option` values. -/
structure ScopeTraceState where
  enabledCs : List Name
  disabledCs : List Name
  gEnv : Option Environment
  gOpts : Option KVMap
  gCtx : Option Nat
deriving DecidableEq, Repr

/-- Saved fields of a `scope_trace_env`: the two list lengths and the
previously bound triple. -/
structure ScopeSnapshot where
  enableSz : Nat
  disableSz : Nat
  oldEnv : Option Environment
  oldOpts : Option KVMap
  oldCtx : Option Nat
deriving DecidableEq, Repr

/-- `std::vector::resize`: truncate to the given length, or pad with
default-constructed (anonymous) names when growing. -/
def resizeList (l : List Name) (n : Nat) : List Name :=
  if n ≤ l.length then l.take n else l ++ List.replicate (n - l.length) Name.anonymous

/-- The key `trace` under which trace options live. -/
def traceRootName : Name := Name.str Name.anonymous "trace"

/-- The option-scanning loop of `scope_trace_env::init`: for each bound
key under the `trace` namespace, enable or disable the class obtained by
stripping that namespace, according to the key's boolean value. -/
def applyTraceOptions (o : KVMap) (st : ScopeTraceState) : ScopeTraceState :=
  o.foldl
    (fun acc e =>
      if traceRootName.isPrefixOf e.1 then
        let cls := Name.replacePre e.1 traceRootName Name.anonymous
        if kvGetBool o e.1 false then
          { acc with enabledCs := updateClass acc.enabledCs cls }
        else
          { acc with disabledCs := updateClass acc.disabledCs cls }
      else acc)
    st

/-- `scope_trace_env::init`: snapshot the list lengths and the bound
triple, bind the new environment and type context, interpret the
supplied options (when non-null and distinct from the currently bound
ones), and bind the new options. -/
def scopeInit (env : Environment) (opts : Option KVMap) (tc : Nat)
    (st : ScopeTraceState) : ScopeSnapshot × ScopeTraceState :=
  let snap : ScopeSnapshot :=
    ⟨st.enabledCs.length, st.disabledCs.length, st.gEnv, st.gOpts, st.gCtx⟩
  let st1 := { st with gEnv := some env, gCtx := some tc }
  let st2 :=
    match opts with
    | some o => if st.gOpts ≠ some o then applyTraceOptions o st1 else st1
    | none => st1
  (snap, { st2 with gOpts := opts })

/-- `scope_trace_env::~scope_trace_env`: restore the bound triple and
resize both class lists back to the snapshot lengths. -/
def scopeExit (snap : ScopeSnapshot) (st : ScopeTraceState) : ScopeTraceState :=
  { gEnv := snap.oldEnv, gOpts := snap.oldOpts, gCtx := snap.oldCtx,
    enabledCs := resizeList st.enabledCs snap.enableSz,
    disabledCs := resizeList st.disabledCs snap.disableSz }

/-- A dynamic trace scope around a body: enter, run the body (whose
boolean result records whether it propagated a failure), and exit.
The exit runs on both paths, mirroring the C++ guarantee that the
destructor executes on normal return and on exception propagation
alike. -/
def withTraceScope (env : Environment) (opts : Option KVMap) (tc : Nat)
    (body : ScopeTraceState → Bool × ScopeTraceState)
    (st : ScopeTraceState) : Bool × ScopeTraceState :=
  let (snap, st1) := scopeInit env opts tc st
  let (r, st2) := body st1
  (r, scopeExit snap st2)

/-- Concrete names for the testable examples. -/
def nA : Name := Name.str Name.anonymous "A"

def nAB : Name := Name.str nA "B"

def nABC : Name := Name.str nAB "C"

def nD : Name := Name.str Name.anonymous "D"

def nC : Name := Name.str Name.anonymous "C"

/-- The `trace.A.B` option key. -/
def traceABKey : Name := Name.str (Name.str traceRootName "A") "B"

theorem withTraceScope_eq (env : Environment) (opts : Option KVMap) (tc : Nat)
    (body : ScopeTraceState → Bool × ScopeTraceState) (st : ScopeTraceState) :
    withTraceScope env opts tc body st =
      ((body (scopeInit env opts tc st).2).1,
        scopeExit (scopeInit env opts tc st).1 (body (scopeInit env opts tc st).2).2) := by
  unfold withTraceScope
  rcases hs : scopeInit env opts tc st with ⟨snap, st1⟩
  rcases hb : body st1 with ⟨r, st2⟩
  simp [hs, hb]

theorem scopeInit_fst (env : Environment) (opts : Option KVMap) (tc : Nat)
    (st : ScopeTraceState) :
    (scopeInit env opts tc st).1 =
      ⟨st.enabledCs.length, st.disabledCs.length, st.gEnv, st.gOpts, st.gCtx⟩ := rfl

/-- C5: `isClassEnabled(n)` is true iff the enabled list is non-empty, `n`
is not matched in the disabled list, and `n` is matched in the enabled
list, where matching walks `n`'s prefix chain checking each visited
prefix's registered aliases (`MatchedIn`); disabling takes precedence.
Moreover, after registering alias `D` for class `A.B`, enabling `D`
makes `isClassEnabled(A.B.C)` true. -/
theorem isTraceClassEnabled_characterization :
    (∀ (A : AliasMap) (en dis : List Name) (n : Name),
      isTraceClassEnabled A en dis n = true ↔
        (en ≠ [] ∧ ¬ MatchedIn A dis n ∧ MatchedIn A en n)) ∧
    isTraceClassEnabled (registerTraceClassAlias [] nAB nD) [nD] [] nABC = true := by
  constructor
  · intro A en dis n
    unfold isTraceClassEnabled isTraceEnabled
    by_cases hen : en = []
    · subst hen; simp
    · have h1 : en.isEmpty = false := by
        cases en with
        | nil => exact absurd rfl hen
        | cons a t => rfl
      rw [h1]
      by_cases hd : isTraceClassSet A dis n = true
      · have hd' : MatchedIn A dis n := (isTraceClassSet_iff A dis n).mp hd
        simp [hd, hd', hen]
      · have hd' : ¬ MatchedIn A dis n := fun h =>
          hd ((isTraceClassSet_iff A dis n).mpr h)
        simp [hd, hd', hen, isTraceClassSet_iff]
  · decide

/-- C6: exiting a trace scope restores the previously bound
environment/options/type-context triple and truncates both class lists
back to the lengths snapshotted at entry, for every body, on every exit
path (the body's boolean records normal return vs propagated failure);
in particular, with enabled list `[A]`, entering a scope whose options
add `A.B` (visible inside as `[A, A.B]`) and exiting leaves the enabled
list exactly `[A]`, also when the body mutated the lists and propagated
a failure. -/
theorem scope_trace_restoration :
    (∀ (env : Environment) (opts : Option KVMap) (tc : Nat)
        (body : ScopeTraceState → Bool × ScopeTraceState) (st : ScopeTraceState),
      (withTraceScope env opts tc body st).2.gEnv = st.gEnv ∧
      (withTraceScope env opts tc body st).2.gOpts = st.gOpts ∧
      (withTraceScope env opts tc body st).2.gCtx = st.gCtx ∧
      (withTraceScope env opts tc body st).2.enabledCs =
        resizeList (body (scopeInit env opts tc st).2).2.enabledCs
          st.enabledCs.length ∧
      (withTraceScope env opts tc body st).2.disabledCs =
        resizeList (body (scopeInit env opts tc st).2).2.disabledCs
          st.disabledCs.length) ∧
    ((withTraceScope [] (some [(traceABKey, DataValue.ofBool true)]) 0
        (fun s => (false, s)) ⟨[nA], [], none, none, none⟩).2.enabledCs = [nA] ∧
      (withTraceScope [] (some [(traceABKey, DataValue.ofBool true)]) 0
        (fun s => (true, { s with enabledCs := s.enabledCs ++ [nC] }))
        ⟨[nA], [], none, none, none⟩).2 = ⟨[nA], [], none, none, none⟩ ∧
      (scopeInit [] (some [(traceABKey, DataValue.ofBool true)]) 0
        ⟨[nA], [], none, none, none⟩).2.enabledCs = [nA, nAB]) := by
  refine ⟨fun env opts tc body st => ?_, by decide, by decide, by decide⟩
  rw [withTraceScope_eq, scopeInit_fst]
  exact ⟨rfl, rfl, rfl, rfl, rfl⟩

/-- C8: structurally equal names have equal cached hashes (so `operator==`
decides structural equality), and whenever `quick_cmp` reports two names
equal, the full lexicographic `cmp` also reports them equal. -/
theorem name_hash_cmp_consistency :
    (∀ n1 n2 : Name, Name.beqName n1 n2 = true ↔ n1 = n2) ∧
    (∀ n1 n2 : Name, n1 = n2 → n1.hashVal = n2.hashVal) ∧
    (∀ n1 n2 : Name, Name.quickCmp n1 n2 = 0 → Name.cmp n1 n2 = 0) := by
  refine ⟨Name.beqName_iff, fun n1 n2 h => Name.hashVal_congr h, fun n1 n2 h => ?_⟩
  unfold Name.quickCmp at h
  by_cases hh : n1.hashVal = n2.hashVal
  · rw [if_neg (by simp [hh])] at h
    cases hb : Name.beqName n1 n2 with
    | true =>
      have : n1 = n2 := (Name.beqName_iff n1 n2).mp hb
      rw [this]
      exact Name.cmp_refl n2
    | false => rwa [hb, if_neg (by simp)] at h
  · rw [if_pos (by simpa using hh)] at h
    by_cases hlt : n1.hashVal < n2.hashVal
    · rw [if_pos hlt] at h
      exact absurd h (by decide)
    · rw [if_neg hlt] at h
      exact absurd h (by decide)

theorem name_hash_cmp_consistency_witness :
    Name.hashVal nA = Name.hashVal nA ∧ Name.cmp nAB nAB = 0 :=
  ⟨name_hash_cmp_consistency.2.1 nA nA rfl,
    name_hash_cmp_consistency.2.2 nAB nAB (by decide)⟩

/-! ## Core execution context and declaration pipeline
(src/stage0/stdlib/Lean/CoreM.c) -/

/-- Surface syntax values, mirroring the four constructors the compiled
code switches on (missing / node / atom / ident); source-position and
macro-scope bookkeeping carried by the real constructors is immaterial
to the embedded functions and is omitted. -/
inductive Stx where
  | missing : Stx
  | node (kind : Name) (args : List Stx) : Stx
  | atom (val : String) : Stx
  | ident (name : Name) : Stx

/-- A kernel error report; its structure is owned by the external kernel
and is opaque to this layer. -/
structure KernelException where
  code : Nat
deriving DecidableEq, Repr

/-- Pretty-printer documents; only the text leaf is reached by the
embedded functions. -/
inductive Format where
  | text (s : String)
deriving DecidableEq, Repr

/-- Structured diagnostic payloads (`MessageData`); `ofKernelException`
records, opaquely, the output of the external kernel formatter
`KernelException.toMessageData` applied to its two arguments. -/
inductive MessageData where
  | ofFormat (f : Format)
  | ofName (n : Name)
  | compose (a b : MessageData)
  | ofKernelException (kex : KernelException) (opts : KVMap)
deriving DecidableEq, Repr

/-- Modelled from the spec: the kernel's own formatter (an external
collaborator reached as `Lean.KernelException.toMessageData`); its
output is recorded opaquely together with the arguments it was given. -/
def kernelExceptionToMessageData (kex : KernelException) (opts : KVMap) : MessageData :=
  MessageData.ofKernelException kex opts

/-- The exception taxonomy of `Lean.Core.Exception`: an I/O failure (its
native error text), a kernel failure together with the options in
effect, and an elaboration failure carrying the originating reference
and a message. -/
inductive Exception where
  | io (err : String)
  | kernel (kex : KernelException) (opts : KVMap)
  | error (ref : Stx) (msg : MessageData)

/-- `Lean.Core.Exception.toMessageData`. -/
def Exception.toMessageData : Exception → MessageData
  | .io e => .ofFormat (.text e)
  | .kernel kex opts => kernelExceptionToMessageData kex opts
  | .error _ msg => msg

/-- The fresh-name generator: a prefix and the next numeral. -/
structure NameGenerator where
  pre : Name
  idx : Nat
deriving Repr

/-- The immutable, call-scoped configuration `Lean.Core.Context`:
options, current and maximum recursion depth, and the current source
reference. -/
structure Context where
  options : KVMap
  currRecDepth : Nat
  maxRecDepth : Nat
  ref : Stx

/-- The mutable, run-scoped state `Lean.Core.State` held behind the run's
reference cell: environment, name generator, and trace log (whose
structure no embedded claim inspects). -/
structure State where
  env : Environment
  ngen : NameGenerator
  traceState : List MessageData

/-- Outcome of a Core action: value or exception, each with the trailing
state of the run's reference cell. -/
inductive CoreResult (α : Type) where
  | ok (a : α) (s : State)
  | error (e : Exception) (s : State)

/-- The trailing state of an outcome. -/
def CoreResult.stateOf {α : Type} : CoreResult α → State
  | .ok _ s => s
  | .error _ s => s

/-- The Core monad: reader over the context, state over the reference
cell's content, exceptions as values (`ReaderT Context (EIO Exception)`
with the run's `ST` reference inlined as explicit state). -/
def CoreM (α : Type) : Type := Context → State → CoreResult α

def pureCore {α : Type} (a : α) : CoreM α := fun _ s => .ok a s

def bindCore {α β : Type} (x : CoreM α) (f : α → CoreM β) : CoreM β := fun ctx s =>
  match x ctx s with
  | .ok a s' => f a ctx s'
  | .error e s' => .error e s'

/-- `throw` of the underlying exception monad. -/
def throwExc {α : Type} (e : Exception) : CoreM α := fun _ s => .error e s

/-- `Lean.Core.throwError`: raise an elaboration failure at the current
reference. -/
def throwErrorCore {α : Type} (msg : MessageData) : CoreM α := fun ctx s =>
  .error (.error ctx.ref msg) s

/-- `Lean.Core.getEnv`. -/
def getEnv : CoreM Environment := fun _ s => .ok s.env s

/-- `Lean.Core.setEnv`: take the state tuple, replace its environment
component, and set it back. -/
def setEnv (env : Environment) : CoreM Unit := fun _ s =>
  .ok () { s with env := env }

/-- `Lean.Core.modifyEnv`. -/
def modifyEnv (f : Environment → Environment) : CoreM Unit := fun _ s =>
  .ok () { s with env := f s.env }

/-- `Lean.Core.getOptions`: project the context's options. -/
def getOptions : CoreM KVMap := fun ctx s => .ok ctx.options s

/-- `Lean.Core.getTraceState`. -/
def getTraceState : CoreM (List MessageData) := fun _ s => .ok s.traceState s

/-- `Lean.Core.mkFreshId`: read the generator from the state, produce the
numeral-suffixed name, then take the state and set it back with the
generator's counter incremented. -/
def mkFreshId : CoreM Name := fun _ s =>
  .ok (Name.num s.ngen.pre s.ngen.idx)
    { s with ngen := ⟨s.ngen.pre, s.ngen.idx + 1⟩ }

/-- The fixed maximum-recursion-depth message (`Lean.maxRecDepthErrorMessage`,
an external string constant). -/
def maxRecDepthErrorMessage : String :=
  "maximum recursion depth has been reached (use `set_option maxRecDepth <num>` to increase limit)"

/-- `Lean.Core.checkRecDepth`: fail with the distinguished elaboration
failure exactly when the current depth equals the maximum depth. -/
def checkRecDepth : CoreM Unit := fun ctx s =>
  if ctx.currRecDepth = ctx.maxRecDepth then
    .error (.error ctx.ref (.ofFormat (.text maxRecDepthErrorMessage))) s
  else .ok () s

/-- `Lean.Core.Context.incCurrRecDepth`. -/
def Context.incCurrRecDepth (ctx : Context) : Context :=
  { ctx with currRecDepth := ctx.currRecDepth + 1 }

/-- `Lean.Core.withIncRecDepth`: check the recursion fence, then run the
action under the context with the depth incremented. -/
def withIncRecDepth {α : Type} (x : CoreM α) : CoreM α := fun ctx s =>
  match checkRecDepth ctx s with
  | .ok _ s' => x ctx.incCurrRecDepth s'
  | .error e s' => .error e s'

/-- A declaration: a named, checked unit the kernel can add to an
environment; its body is opaque to this layer and reduced to a payload. -/
structure Declaration where
  name : Name
  payload : Nat
deriving DecidableEq, Repr

/-- The external collaborators of the declaration pipeline (spec section 6):
the kernel's `addDecl` and the compiler backend's `compileDecl`, pure
functions returning a new environment or an exception. -/
structure Kernel where
  addDecl : Environment → Declaration → Except KernelException Environment
  compileDecl : Environment → KVMap → Declaration → Except KernelException Environment

/-- `Lean.Core.addDecl`: read the current environment, invoke the kernel;
on success install the kernel's new environment; on failure raise a
kernel exception carrying the options in effect, leaving the state
untouched. -/
def addDecl (K : Kernel) (d : Declaration) : CoreM Unit :=
  bindCore getEnv fun env =>
    match K.addDecl env d with
    | .ok env' => setEnv env'
    | .error kex => bindCore getOptions fun opts => throwExc (.kernel kex opts)

/-- `Lean.Core.compileDecl`: read the current environment and options,
invoke the compiler backend; on success install the returned
environment; on failure raise a kernel exception carrying the options
(re-read, as in the compiled code). -/
def compileDecl (K : Kernel) (d : Declaration) : CoreM Unit :=
  bindCore getEnv fun env =>
    bindCore getOptions fun opts =>
      match K.compileDecl env opts d with
      | .ok env' => setEnv env'
      | .error cex => bindCore getOptions fun opts2 => throwExc (.kernel cex opts2)

/-- `Lean.Core.addAndCompile`: sequential composition of `addDecl` and
`compileDecl`. -/
def addAndCompile (K : Kernel) (d : Declaration) : CoreM Unit :=
  bindCore (addDecl K d) fun _ => compileDecl K d

/-- A kernel whose checker accepts every declaration by binding its name,
and whose compiler backend succeeds. -/
def okKernel : Kernel where
  addDecl := fun env d => .ok ((d.name, d.payload) :: env)
  compileDecl := fun env _ _ => .ok env

/-- A kernel whose checker accepts, but whose compiler backend always
fails with error code 7. -/
def failCompileKernel : Kernel where
  addDecl := fun env d => .ok ((d.name, d.payload) :: env)
  compileDecl := fun _ _ _ => .error ⟨7⟩

/-- A kernel whose checker always rejects with error code 3. -/
def failAddKernel : Kernel where
  addDecl := fun _ _ => .error ⟨3⟩
  compileDecl := fun env _ _ => .ok env

def d0 : Declaration := ⟨nA, 5⟩

def ctx0 : Context := ⟨[], 0, 3, .missing⟩

def st0 : State := ⟨[], ⟨Name.str Name.anonymous "_uniq", 1⟩, []⟩

/-- C3: `addDecl` invokes the kernel on the current environment; on
success it installs the kernel's new environment into the mutable state,
and on failure it leaves the state untouched and returns the kernel
exception as an `Exception` value. -/
theorem addDecl_commit_or_report (K : Kernel) (d : Declaration)
    (ctx : Context) (st : State) :
    (∀ env', K.addDecl st.env d = .ok env' →
      addDecl K d ctx st = .ok () { st with env := env' }) ∧
    (∀ kex, K.addDecl st.env d = .error kex →
      addDecl K d ctx st = .error (.kernel kex ctx.options) st) := by
  constructor
  · intro env' h
    simp [addDecl, bindCore, getEnv, h, setEnv]
  · intro kex h
    simp [addDecl, bindCore, getEnv, h, getOptions, throwExc]

theorem addDecl_commit_or_report_witness :
    addDecl okKernel d0 ctx0 st0 = .ok () { st0 with env := [(nA, 5)] } ∧
    addDecl failAddKernel d0 ctx0 st0 = .error (.kernel ⟨3⟩ []) st0 :=
  ⟨(addDecl_commit_or_report okKernel d0 ctx0 st0).1 [(nA, 5)] rfl,
    (addDecl_commit_or_report failAddKernel d0 ctx0 st0).2 ⟨3⟩ rfl⟩

/-- C1: when the kernel check succeeds and the compiler backend call
fails, `addAndCompile` returns the compiler's exception while the
environment in the state read afterwards is the one committed by
`addDecl`, so the declaration is still found there: no rollback. -/
theorem addAndCompile_no_rollback (K : Kernel) (d : Declaration)
    (ctx : Context) (st : State) (env' : Environment) (cex : KernelException)
    (i : Nat)
    (hk : K.addDecl st.env d = .ok env')
    (hc : K.compileDecl env' ctx.options d = .error cex)
    (hfind : envFind env' d.name = some i) :
    addAndCompile K d ctx st =
      .error (.kernel cex ctx.options) { st with env := env' } ∧
    envFind ((addAndCompile K d ctx st).stateOf).env d.name = some i := by
  have h1 : addAndCompile K d ctx st =
      .error (.kernel cex ctx.options) { st with env := env' } := by
    simp [addAndCompile, bindCore, addDecl, getEnv, hk, setEnv, compileDecl,
      getOptions, hc, throwExc]
  refine ⟨h1, ?_⟩
  rw [h1]
  exact hfind

theorem addAndCompile_no_rollback_witness :
    addAndCompile failCompileKernel d0 ctx0 st0 =
      .error (.kernel ⟨7⟩ []) { st0 with env := [(nA, 5)] } ∧
    envFind ((addAndCompile failCompileKernel d0 ctx0 st0).stateOf).env d0.name =
      some 5 :=
  addAndCompile_no_rollback failCompileKernel d0 ctx0 st0 [(nA, 5)] ⟨7⟩ 5
    rfl rfl (by decide)

/-- A body for the recursion-fence scenario: record that the body at
nesting level `k` executed, by binding a marker declaration in the
environment. -/
def markDecl (k : Nat) : CoreM Unit :=
  modifyEnv (fun e => e ++ [(Name.num Name.anonymous k, k)])

/-- Three nested `withIncRecDepth` calls, each body leaving a marker. -/
def nest3 : CoreM Unit :=
  withIncRecDepth (bindCore (markDecl 1) fun _ =>
    withIncRecDepth (bindCore (markDecl 2) fun _ =>
      withIncRecDepth (markDecl 3)))

/-- Four nested `withIncRecDepth` calls, each body leaving a marker. -/
def nest4 : CoreM Unit :=
  withIncRecDepth (bindCore (markDecl 1) fun _ =>
    withIncRecDepth (bindCore (markDecl 2) fun _ =>
      withIncRecDepth (bindCore (markDecl 3) fun _ =>
        withIncRecDepth (markDecl 4))))

/-- The environment after the first `k` markers. -/
def marksEnv : Nat → Environment
  | 0 => []
  | k + 1 => marksEnv k ++ [(Name.num Name.anonymous (k + 1), k + 1)]

/-- C2: `withIncRecDepth` fails with the distinguished max-recursion-depth
elaboration failure — without invoking the action and leaving the state
unchanged — exactly when the current depth equals the maximum depth, and
otherwise invokes the action under the context with the depth
incremented. Starting at depth 0 with maximum depth 3, four nested calls
fail on the fourth without executing its body (only markers 1–3 appear),
while three nested calls execute all three bodies. -/
theorem withIncRecDepth_fence :
    (∀ (α : Type) (act : CoreM α) (ctx : Context) (st : State),
      withIncRecDepth act ctx st =
        if ctx.currRecDepth = ctx.maxRecDepth then
          CoreResult.error
            (.error ctx.ref (.ofFormat (.text maxRecDepthErrorMessage))) st
        else act ctx.incCurrRecDepth st) ∧
    nest4 ctx0 st0 =
      .error (.error Stx.missing (.ofFormat (.text maxRecDepthErrorMessage)))
        { st0 with env := marksEnv 3 } ∧
    nest3 ctx0 st0 = .ok () { st0 with env := marksEnv 3 } := by
  refine ⟨fun α act ctx st => ?_, rfl, rfl⟩
  unfold withIncRecDepth checkRecDepth
  by_cases h : ctx.currRecDepth = ctx.maxRecDepth
  · simp [h]
  · simp [h]

/-- Repeated fresh-name generation: `k` successive `mkFreshId` calls in
one run, collecting the produced identifiers. -/
def mkFreshIds : Nat → CoreM (List Name)
  | 0 => pureCore []
  | k + 1 => bindCore mkFreshId fun n =>
      bindCore (mkFreshIds k) fun ns => pureCore (n :: ns)

/-- C7: each `mkFreshId` call produces the numeral of the generator's
prefix and counter and bumps the counter; `k` calls within one run
produce the `k` consecutive numerals from the starting counter, and any
such list of identifiers is pairwise distinct. -/
theorem mkFreshId_unique :
    (∀ (ctx : Context) (st : State),
      mkFreshId ctx st = .ok (Name.num st.ngen.pre st.ngen.idx)
        { st with ngen := ⟨st.ngen.pre, st.ngen.idx + 1⟩ }) ∧
    (∀ (k : Nat) (ctx : Context) (st : State),
      mkFreshIds k ctx st =
        .ok ((List.range k).map (fun i => Name.num st.ngen.pre (st.ngen.idx + i)))
          { st with ngen := ⟨st.ngen.pre, st.ngen.idx + k⟩ }) ∧
    (∀ (k : Nat) (pre : Name) (start : Nat),
      ((List.range k).map (fun i => Name.num pre (start + i))).Nodup) := by
  refine ⟨fun ctx st => rfl, ?_, ?_⟩
  · intro k
    induction k with
    | zero =>
      intro ctx st
      simp [mkFreshIds, pureCore]
    | succ k ih =>
      intro ctx st
      simp only [mkFreshIds, bindCore, mkFreshId]
      rw [ih]
      simp only [pureCore]
      have hr : (List.range (k + 1)).map
            (fun i => Name.num st.ngen.pre (st.ngen.idx + i)) =
          Name.num st.ngen.pre st.ngen.idx ::
            (List.range k).map (fun i => Name.num st.ngen.pre (st.ngen.idx + 1 + i)) := by
        rw [List.range_succ_eq_map, List.map_cons, List.map_map]
        have hf : ((fun i => Name.num st.ngen.pre (st.ngen.idx + i)) ∘ Nat.succ)
            = fun i => Name.num st.ngen.pre (st.ngen.idx + 1 + i) := by
          funext i
          simp only [Function.comp_apply]
          congr 1
          omega
        rw [hf]
        simp
      rw [hr]
      have hk : st.ngen.idx + 1 + k = st.ngen.idx + (k + 1) := by omega
      rw [hk]
  · intro k pre start
    refine List.Nodup.map ?_ (List.nodup_range k)
    intro i j h
    have := Name.num.inj h
    omega

/-- C9: `mkFreshId` modifies only the name-generator component of the
state: the environment and the trace log are unchanged, and the call
always succeeds. -/
theorem mkFreshId_frame (ctx : Context) (st : State) :
    (mkFreshId ctx st).stateOf.env = st.env ∧
    (mkFreshId ctx st).stateOf.traceState = st.traceState ∧
    mkFreshId ctx st = .ok (Name.num st.ngen.pre st.ngen.idx)
      { st with ngen := ⟨st.ngen.pre, st.ngen.idx + 1⟩ } :=
  ⟨rfl, rfl, rfl⟩

def optsB : KVMap := [(nA, DataValue.ofBool true)]

def ctxB : Context := { ctx0 with options := optsB }

def stEnvB : State := { st0 with env := [(nD, 9)] }

/-- C4 counterexample: the kernel-failure exception constructed by
`addDecl` does not hold the environment the failed check ran against —
it holds the context's options. With the kernel result fixed, the
exception (and its rendering) changes when only the options change
(same starting environment), and is unchanged when only the environment
changes (same options). Were the variant's payload the environment
paired with the kernel error, the first pair of runs would have to
agree and the second pair would have to differ. -/
theorem kernel_exception_env_counterexample :
    addDecl failAddKernel d0 ctxB st0 ≠ addDecl failAddKernel d0 ctx0 st0 ∧
    ctxB.options ≠ ctx0.options ∧
    addDecl failAddKernel d0 ctx0 st0 = .error (.kernel ⟨3⟩ []) st0 ∧
    addDecl failAddKernel d0 ctx0 stEnvB = .error (.kernel ⟨3⟩ []) stEnvB ∧
    stEnvB.env ≠ st0.env ∧
    Exception.toMessageData (.kernel ⟨3⟩ optsB) ≠
      Exception.toMessageData (.kernel ⟨3⟩ []) := by
  refine ⟨?_, by decide, rfl, rfl, by decide, ?_⟩
  · intro h
    have h1 : addDecl failAddKernel d0 ctxB st0 =
        CoreResult.error (.kernel ⟨3⟩ optsB) st0 := rfl
    have h2 : addDecl failAddKernel d0 ctx0 st0 =
        CoreResult.error (.kernel ⟨3⟩ []) st0 := rfl
    rw [h1, h2] at h
    simp only [CoreResult.error.injEq, Exception.kernel.injEq] at h
    exact absurd h.1.2 (by decide)
  · intro h
    simp only [Exception.toMessageData, kernelExceptionToMessageData,
      MessageData.ofKernelException.injEq] at h
    exact absurd h.2 (by decide)

/-- C4 (amended): the kernel-failure exception variant carries the
options in effect alongside the kernel error information: every kernel
exception constructed by a failing `addDecl` holds the context's
options, and `toMessageData` renders it by handing the kernel's own
formatter those associated options; `IoFailure` renders the native
error text as a string, and `ElaborationFailure` returns its message
payload unchanged. -/
theorem kernel_exception_payload_options :
    (∀ (K : Kernel) (d : Declaration) (ctx : Context) (st : State)
        (kex : KernelException),
      K.addDecl st.env d = .error kex →
        addDecl K d ctx st = .error (.kernel kex ctx.options) st) ∧
    (∀ (kex : KernelException) (opts : KVMap),
      Exception.toMessageData (.kernel kex opts) =
        kernelExceptionToMessageData kex opts) ∧
    (∀ e : String, Exception.toMessageData (.io e) = .ofFormat (.text e)) ∧
    (∀ (r : Stx) (m : MessageData), Exception.toMessageData (.error r m) = m) := by
  refine ⟨fun K d ctx st kex h => ?_, fun kex opts => rfl, fun e => rfl,
    fun r m => rfl⟩
  simp [addDecl, bindCore, getEnv, h, getOptions, throwExc]

theorem kernel_exception_payload_options_witness :
    addDecl failAddKernel d0 ctxB st0 = .error (.kernel ⟨3⟩ ctxB.options) st0 :=
  kernel_exception_payload_options.1 failAddKernel d0 ctxB st0 ⟨3⟩ rfl

/-! ## The set_option elaborator (src/stage0/stdlib/Lean/Elab/SetOption.c) -/

/-- `Lean.Syntax.getId`: the name of an identifier, anonymous otherwise. -/
def Stx.getId : Stx → Name
  | .ident n => n
  | _ => .anonymous

/-- Modelled from the spec: macro-scope erasure on the option name
(`lean_erase_macro_scopes`, external); names in this model carry no
macro scopes, so erasure is the identity. -/
def eraseMacroScopes (n : Name) : Name := n

/-- The string-literal node kind. -/
def strLitKind : Name := Name.str Name.anonymous "strLit"

/-- The numeric-literal node kind (`l_Lean_numLitKind`). -/
def numLitKind : Name := Name.str Name.anonymous "numLit"

/-- Modelled from the spec: the string-literal recognizer
(`Lean.Syntax.isStrLit?`, external to src/): a node of the
string-literal kind with a single atom child, whose literal text is
returned. -/
def isStrLit : Stx → Option String
  | .node k [.atom s] => if k = strLitKind then some s else none
  | _ => none

/-- Modelled from the spec: the numeric-literal recognizer
(`Lean.Syntax.isNatLitAux`, external to src/): a node of the given
literal kind with a single atom child whose text parses as a numeral. -/
def isNatLitAux (litKind : Name) : Stx → Option Nat
  | .node k [.atom s] => if k = litKind then s.toNat? else none
  | _ => none

/-- `Lean.DataValue.sameCtor`: whether two data values use the same
constructor. -/
def DataValue.sameCtor : DataValue → DataValue → Bool
  | .ofString _, .ofString _ => true
  | .ofBool _, .ofBool _ => true
  | .ofName _, .ofName _ => true
  | .ofNat _, .ofNat _ => true
  | _, _ => false

/-- `Lean.KVMap.insertCore` (external to src/, the standard list update):
replace the first binding of the key, or append a new binding. -/
def insertCore : KVMap → Name → DataValue → KVMap
  | [], k, v => [(k, v)]
  | (k', v') :: m, k, v =>
    if k = k' then (k, v) :: m else (k', v') :: insertCore m k v

/-- A registered option's declaration; only its default value is
consulted by `setOption`. -/
structure OptionDecl where
  defValue : DataValue
deriving DecidableEq, Repr

/-- Elaboration messages, mirroring the `MessageData` shapes built by
`elabSetOption`: a plain string (`stringToMessageData`, and the
`Format.text` wrapping of a native error text), an embedded syntax
value, left-to-right composition, and the closing constant
`KernelException.toMessageData closed 15` appended after the offending
value (an external constant, recorded opaquely). -/
inductive EMsg where
  | ofString (s : String)
  | ofStx (v : Stx)
  | compose (a b : EMsg)
  | kexClosing

/-- The elaboration monad of the embedded `elabSetOption`, specialized
from the source's monad-generic form: a reader for the external
option-declaration registry (`Lean.getOptionDecl`, an IO call whose
failure is the native error text) and the current options, with
value-level exceptions. -/
def ElabM (α : Type) : Type :=
  (Name → Except String OptionDecl) → KVMap → Except EMsg α

/-- `Lean.Elab.elabSetOption.setOption`: read the options, fetch the
option's declaration (a failing fetch raises its native error text),
require the new value to use the same constructor as the declared
default (else raise the type-mismatch error), and return the updated
options. -/
def setOption (optName : Name) (v : DataValue) : ElabM KVMap := fun decls opts =>
  match decls optName with
  | .error e => .error (.ofString e)
  | .ok d =>
    if DataValue.sameCtor d.defValue v then .ok (insertCore opts optName v)
    else .error (.ofString "type mismatch at set_option")

/-- The message raised on an unrecognized option-value syntax:
`"unexpected set_option value " ++ val ++ <closing constant>`. -/
def unexpectedValMsg (val : Stx) : EMsg :=
  .compose (.compose (.ofString "unexpected set_option value ") (.ofStx val)) .kexClosing

/-- `Lean.Elab.elabSetOption`: derive the option name from the
identifier, then try in order a string literal, a numeric literal, and
the atoms `true` / `false` (mapped to the boolean data values); any
other value syntax raises the unexpected-value error. -/
def elabSetOption (idStx valStx : Stx) : ElabM KVMap := fun decls opts =>
  let optName := eraseMacroScopes idStx.getId
  match isStrLit valStx with
  | some s => setOption optName (.ofString s) decls opts
  | none =>
    match isNatLitAux numLitKind valStx with
    | some n => setOption optName (.ofNat n) decls opts
    | none =>
      match valStx with
      | .atom s =>
        if s = "true" then setOption optName (.ofBool true) decls opts
        else if s = "false" then setOption optName (.ofBool false) decls opts
        else .error (unexpectedValMsg (.atom s))
      | v => .error (unexpectedValMsg v)

/-- The four accepted shapes of a set_option value, with the data value
each one denotes: a string literal, a numeric literal, and the atoms
`true` and `false`. -/
def classifyOptionValue (val : Stx) : Option DataValue :=
  match isStrLit val with
  | some s => some (.ofString s)
  | none =>
    match isNatLitAux numLitKind val with
    | some n => some (.ofNat n)
    | none =>
      match val with
      | .atom s =>
        if s = "true" then some (.ofBool true)
        else if s = "false" then some (.ofBool false)
        else none
      | _ => none

/-- The leftmost plain-string leaf of a message: what a reader sees
first in the rendered text. -/
def leftmostStr : EMsg → Option String
  | .ofString s => some s
  | .compose a _ => leftmostStr a
  | _ => none

/-- Character-list prefix test. -/
def listBegins : List Char → List Char → Bool
  | [], _ => true
  | _ :: _, [] => false
  | a :: as, b :: bs => decide (a = b) && listBegins as bs

/-- Whether the first string is a prefix of the second. -/
def strBegins (p s : String) : Bool := listBegins p.toList s.toList

/-- Whether a message's rendered text begins with the given string. -/
def msgBegins (m : EMsg) (p : String) : Bool :=
  match leftmostStr m with
  | some s => strBegins p s
  | none => false

/-- C10: `elabSetOption` accepts exactly four shapes of option value — a
string literal, a numeric literal, and the atoms `true` and `false`,
mapped to the corresponding data values and handed to `setOption` —
and for every other value syntax it fails with an elaboration error
whose message begins with "unexpected set_option value"; on that
failure no updated option map is produced, so the options are
unmodified. -/
theorem elabSetOption_shapes :
    (∀ (decls : Name → Except String OptionDecl) (opts : KVMap)
        (idStx valStx : Stx),
      elabSetOption idStx valStx decls opts =
        match classifyOptionValue valStx with
        | some dv => setOption (eraseMacroScopes idStx.getId) dv decls opts
        | none => .error (unexpectedValMsg valStx)) ∧
    (∀ valStx : Stx,
      msgBegins (unexpectedValMsg valStx) "unexpected set_option value" = true) ∧
    (∀ valStx : Stx,
      leftmostStr (unexpectedValMsg valStx) =
        some "unexpected set_option value ") := by
  refine ⟨fun decls opts idStx valStx => ?_, fun v => ?_, fun v => rfl⟩
  · unfold elabSetOption classifyOptionValue
    cases h1 : isStrLit valStx with
    | some s => simp
    | none =>
      cases h2 : isNatLitAux numLitKind valStx with
      | some n => simp
      | none =>
        cases valStx with
        | missing => simp
        | node k args => simp
        | ident n => simp
        | atom s =>
          by_cases ht : s = "true"
          · simp [ht]
          · by_cases hf : s = "false" <;> simp [ht, hf]
  · simp only [msgBegins, unexpectedValMsg, leftmostStr]
    decide
